import Mathlib

/-!
Verification development for the `fireatwillshakespeare` repository.

The definitions below are a shallow embedding of the Python sources:
  * `src/models/entities.py` — `EntityType`, `EndgameResult`, `Coordinates`;
  * `src/models/board.py`    — `Board` and its operations;
  * `src/_gpt_helpers.py`    — the retry loop of `_gpt_submit` and the
    schema compiler `_convert_schema_recursive` of `JSONSchemaFormat`.

Python machine integers are arbitrary precision, so they are embedded as
`Int`/`Nat` directly.  Python `list.append` is `· ++ [x]`, `list.remove` is
`List.erase` (first occurrence; in every state considered here the element is
present, so the `ValueError` branch of `remove` is unreachable).  The grid, a
`rows × cols` list of lists that is only ever read or written after an
explicit bounds check, is embedded as a total function `Int → Int → EntityType`
that is `empty` outside the allocated rectangle.

A few operations that `src/main.py` calls on `Board`
(`check_endgame`, `deploy_chaff`, `start_turn`) are not present in
`src/models/board.py`; those are modelled from the spec and are marked
`Modelled from the spec:` in their doc comments.
-/

namespace FireAtWill

/-- `EntityType` from `src/models/entities.py`: the closed set of values a
grid cell (or a fire result) can take. -/
inductive EntityType
  | empty
  | ship
  | hostage
  | chaff
deriving DecidableEq, Repr

/-- `Position(row, col)`: the value-equality pair stored in `Board.ships` and
`Board.hostages`.  (`board.py` imports `Position` from `entities.py`; the class
itself is a frozen-dataclass-style pair with value equality, exactly like the
`Coordinates` dataclass that `entities.py` does define.) -/
structure Position where
  row : Int
  col : Int
deriving DecidableEq, Repr

/-- The board state of `src/models/board.py`: a `rows × cols` grid of
`EntityType` plus the two tracking lists. -/
structure Board where
  rows : Int
  cols : Int
  grid : Int → Int → EntityType
  ships : List Position
  hostages : List Position

/-- `Board.__init__`: an all-empty grid and empty tracking lists. -/
def Board.init (rows cols : Int) : Board :=
  { rows := rows
    cols := cols
    grid := fun _ _ => EntityType.empty
    ships := []
    hostages := [] }

/-- `Board._is_valid_position`: `0 <= row < self.rows and 0 <= col < self.cols`. -/
def Board.is_valid_position (b : Board) (row col : Int) : Bool :=
  decide (0 ≤ row) && decide (row < b.rows) && decide (0 ≤ col) && decide (col < b.cols)

/-- Pointwise update of the grid function, embedding `self.grid[row][col] = t`. -/
def setGrid (g : Int → Int → EntityType) (row col : Int) (t : EntityType) :
    Int → Int → EntityType :=
  fun r c => if r = row ∧ c = col then t else g r c

/-- `Board.place_ship`: returns the updated board and the `bool` result. -/
def Board.place_ship (b : Board) (row col : Int) : Board × Bool :=
  if b.is_valid_position row col = false then (b, false)
  else if b.grid row col ≠ EntityType.empty then (b, false)
  else ({ b with
            grid := setGrid b.grid row col EntityType.ship
            ships := b.ships ++ [⟨row, col⟩] },
        true)

/-- `Board.place_hostage`: returns the updated board and the `bool` result. -/
def Board.place_hostage (b : Board) (row col : Int) : Board × Bool :=
  if b.is_valid_position row col = false then (b, false)
  else if b.grid row col ≠ EntityType.empty then (b, false)
  else ({ b with
            grid := setGrid b.grid row col EntityType.hostage
            hostages := b.hostages ++ [⟨row, col⟩] },
        true)

/-- `Board._execute_fire` (the underscore is dropped for Lean): bounds check,
read the cell, clear it when it held a ship or a hostage, and return the hit. -/
def Board.execute_fire (b : Board) (row col : Int) : Board × Option EntityType :=
  if b.is_valid_position row col = false then (b, none)
  else
    match b.grid row col with
    | EntityType.ship =>
        ({ b with
             grid := setGrid b.grid row col EntityType.empty
             ships := b.ships.erase ⟨row, col⟩ },
         some EntityType.ship)
    | EntityType.hostage =>
        ({ b with
             grid := setGrid b.grid row col EntityType.empty
             hostages := b.hostages.erase ⟨row, col⟩ },
         some EntityType.hostage)
    | hit => (b, some hit)

/-- `Coordinates` from `src/models/entities.py`: a frozen dataclass pair. -/
structure Coordinates where
  row : Int
  col : Int
deriving DecidableEq, Repr

/-- The runtime type of the first argument of `Board.fire`, which Python leaves
dynamically typed (`Union[int, str]` is declared, but `main.py` passes a
`Coordinates` value). -/
inductive FireRow
  | intRow (i : Int)
  | strRow (s : String)
  | coordRow (c : Coordinates)
deriving DecidableEq, Repr

/-- Result of a call to `Board.fire`.  `ret t` is a normal return of `t`
(`None` or an `EntityType`); `typeError` marks the one path where Python would
raise a `TypeError` (a non-`int`, non-`str` first argument together with an
explicit `col`, which reaches the `0 <= row` comparison of
`_is_valid_position`). -/
inductive FireCallResult
  | ret (t : Option EntityType)
  | typeError
deriving DecidableEq, Repr

/-- Python's `int(c)` applied to the single character `coordinate[1]` inside
`Board.fire`: succeeds exactly on a decimal digit. -/
def intOfChar (c : Char) : Option Int :=
  if c.isDigit then some ((c.toNat : Int) - ('0'.toNat : Int)) else none

/-- `Board.fire` from `src/models/board.py`: the string branch parses a strict
two-character `[A-H][1-8]` coordinate; the non-string branch returns `None`
when `col is None` and otherwise delegates to `_execute_fire`. -/
def Board.fire (b : Board) (row : FireRow) (col : Option Int) :
    Board × FireCallResult :=
  match row with
  | FireRow.strRow s =>
      let coordinate := String.mk (s.data.map Char.toUpper)
      if coordinate.length ≠ 2 then (b, FireCallResult.ret none)
      else
        match coordinate.data with
        | [letter, second] =>
            match intOfChar second with
            | none => (b, FireCallResult.ret none)
            | some number =>
                if letter < 'A' ∨ 'H' < letter then (b, FireCallResult.ret none)
                else
                  let col_idx : Int := (letter.toNat : Int) - ('A'.toNat : Int)
                  if number < 1 ∨ 8 < number then (b, FireCallResult.ret none)
                  else
                    let row_idx : Int := number - 1
                    let r := b.execute_fire row_idx col_idx
                    (r.1, FireCallResult.ret r.2)
        | _ => (b, FireCallResult.ret none)
  | FireRow.intRow i =>
      match col with
      | none => (b, FireCallResult.ret none)
      | some c =>
          let r := b.execute_fire i c
          (r.1, FireCallResult.ret r.2)
  | FireRow.coordRow _ =>
      match col with
      | none => (b, FireCallResult.ret none)
      | some _ => (b, FireCallResult.typeError)

/-- `Board.move_entity`. -/
def Board.move_entity (b : Board) (from_row from_col to_row to_col : Int) :
    Board × Bool :=
  if b.is_valid_position from_row from_col = false then (b, false)
  else if b.is_valid_position to_row to_col = false then (b, false)
  else
    match b.grid from_row from_col with
    | EntityType.empty => (b, false)
    | EntityType.ship =>
        if b.grid to_row to_col ≠ EntityType.empty then (b, false)
        else
          ({ b with
               grid := setGrid (setGrid b.grid from_row from_col EntityType.empty)
                         to_row to_col EntityType.ship
               ships := b.ships.erase ⟨from_row, from_col⟩ ++ [⟨to_row, to_col⟩] },
           true)
    | EntityType.hostage =>
        if b.grid to_row to_col ≠ EntityType.empty then (b, false)
        else
          ({ b with
               grid := setGrid (setGrid b.grid from_row from_col EntityType.empty)
                         to_row to_col EntityType.hostage
               hostages := b.hostages.erase ⟨from_row, from_col⟩ ++ [⟨to_row, to_col⟩] },
           true)
    | t =>
        if b.grid to_row to_col ≠ EntityType.empty then (b, false)
        else
          ({ b with
               grid := setGrid (setGrid b.grid from_row from_col EntityType.empty)
                         to_row to_col t },
           true)

/-- `Board.get_entity_at`. -/
def Board.get_entity_at (b : Board) (row col : Int) : Option EntityType :=
  if b.is_valid_position row col = false then none else some (b.grid row col)

/-- `Board.ships_remaining`: `len(self.ships)`. -/
def Board.ships_remaining (b : Board) : Nat := b.ships.length

/-- `Board.hostages_remaining`: `len(self.hostages)`. -/
def Board.hostages_remaining (b : Board) : Nat := b.hostages.length

/-! ### Endgame evaluation (spec-modelled)

`src/main.py` calls `board.check_endgame()`, but no such method exists in
`src/models/board.py`; only the `EndgameResult` enum (WIN/LOSE) and the call
site are in `src/`. -/

/-- The three possible results of `check_endgame` per spec §4.1
(`Win | Lose | InProgress`; the `EndgameResult` enum of `entities.py` holds the
two terminal ones). -/
inductive EndgameStatus
  | win
  | lose
  | inProgress
deriving DecidableEq, Repr

/-- Modelled from the spec: `Board.check_endgame` is absent from
`src/models/board.py` (only its caller `src/main.py:179` is in `src/`).
Spec §4.1: "evaluated in fixed priority order — Win is returned whenever
ships_remaining()==0, checked strictly before Lose (hostages_remaining()==0);
if both are simultaneously zero, Win takes precedence. InProgress otherwise." -/
def Board.check_endgame (b : Board) : EndgameStatus :=
  if b.ships_remaining = 0 then EndgameStatus.win
  else if b.hostages_remaining = 0 then EndgameStatus.lose
  else EndgameStatus.inProgress

/-! ### Shield overlay (spec-modelled)

`src/main.py` calls `board.deploy_chaff(...)` and `board.start_turn()`, and
branches on a `CHAFF` fire result, but neither method nor any shield state is
present in `src/models/board.py`.  The overlay layer is modelled from spec
§3 (ShieldOverlay) and §4.1 (`fire`, `deploy_shield`, `start_turn`), on top of
the `_execute_fire` that `src/` does contain. -/

/-- Result of the spec's `fire(coord) -> CellContent | Shielded | OutOfBounds`. -/
inductive FireOutcome
  | content (t : EntityType)
  | shielded
  | outOfBounds
deriving DecidableEq, Repr

/-- Modelled from the spec: a `Board` together with the ShieldOverlay — "a
transient, at-most-one-active mapping from a single Coordinate to
shielded-this-turn, independent of CellContent" (spec §3). -/
structure ShieldedBoard where
  board : Board
  shield : Option Position

/-- Modelled from the spec: `start_turn()` "clears the ShieldOverlay" (§4.1). -/
def ShieldedBoard.start_turn (sb : ShieldedBoard) : ShieldedBoard :=
  { sb with shield := none }

/-- Modelled from the spec: `deploy_shield(coord) -> bool` "fails if out of
bounds or a shield is already active elsewhere this turn; otherwise activates
it" (§4.1).  (`main.py` calls this `deploy_chaff`.) -/
def ShieldedBoard.deploy_chaff (sb : ShieldedBoard) (row col : Int) :
    ShieldedBoard × Bool :=
  if sb.board.is_valid_position row col = false then (sb, false)
  else if sb.shield ≠ none then (sb, false)
  else ({ sb with shield := some ⟨row, col⟩ }, true)

/-- Modelled from the spec: the shield-aware `fire` of §4.1 — "if out of
bounds, signals OutOfBounds. Else, if the cell is currently shielded, consumes
the shield and returns Shielded without mutating the underlying CellContent.
Otherwise" the behaviour of `_execute_fire` from `src/models/board.py`. -/
def ShieldedBoard.fire (sb : ShieldedBoard) (row col : Int) :
    ShieldedBoard × FireOutcome :=
  if sb.board.is_valid_position row col = false then (sb, FireOutcome.outOfBounds)
  else if sb.shield = some ⟨row, col⟩ then
    ({ sb with shield := none }, FireOutcome.shielded)
  else
    match sb.board.execute_fire row col with
    | (b, some t) => (⟨b, sb.shield⟩, FireOutcome.content t)
    | (b, none) => (⟨b, sb.shield⟩, FireOutcome.outOfBounds)

/-! ### Reachable board states and the grid/list synchronisation invariant -/

/-- Board states reachable from the constructor through the public operations,
as enumerated by claim C3. -/
inductive Reachable : Board → Prop
  | init (rows cols : Int) : Reachable (Board.init rows cols)
  | place_ship {b : Board} (row col : Int) :
      Reachable b → Reachable (b.place_ship row col).1
  | place_hostage {b : Board} (row col : Int) :
      Reachable b → Reachable (b.place_hostage row col).1
  | fire {b : Board} (row : FireRow) (col : Option Int) :
      Reachable b → Reachable (b.fire row col).1
  | move_entity {b : Board} (fr fc tr tc : Int) :
      Reachable b → Reachable (b.move_entity fr fc tr tc).1

/-- In-bounds predicate on a `Position`, as a proposition. -/
def InBounds (rows cols : Int) (p : Position) : Prop :=
  0 ≤ p.row ∧ p.row < rows ∧ 0 ≤ p.col ∧ p.col < cols

instance (rows cols : Int) (p : Position) : Decidable (InBounds rows cols p) := by
  unfold InBounds; infer_instance

/-- The full row-major scan order of a `rows × cols` grid. -/
def allPositions (rows cols : Int) : List Position :=
  (List.range rows.toNat).flatMap fun (r : Nat) =>
    (List.range cols.toNat).map fun (c : Nat) => ⟨(r : Int), (c : Int)⟩

/-- The number of grid cells holding `t`, derived by a full grid scan. -/
def Board.scanCount (b : Board) (t : EntityType) : Nat :=
  ((allPositions b.rows b.cols).filter fun p => b.grid p.row p.col = t).length

/-- The synchronisation invariant between the grid and the tracking lists:
each list is duplicate-free and holds exactly the in-bounds positions whose
cell holds the matching entity. -/
def Inv (b : Board) : Prop :=
  b.ships.Nodup ∧ b.hostages.Nodup ∧
  (∀ p : Position, p ∈ b.ships ↔
      (InBounds b.rows b.cols p ∧ b.grid p.row p.col = EntityType.ship)) ∧
  (∀ p : Position, p ∈ b.hostages ↔
      (InBounds b.rows b.cols p ∧ b.grid p.row p.col = EntityType.hostage))
/-- No grid cell holds `CHAFF`. -/
def NoChaff (b : Board) : Prop :=
  ∀ r c : Int, b.grid r c ≠ EntityType.chaff


/-! ### Coordinate text parsing and formatting (`src/models/entities.py`) -/

/-- Python `str.strip()` on a character list (ASCII-whitespace model,
matching `Char.isWhitespace`: space, tab, CR, LF). -/
def stripChars (l : List Char) : List Char :=
  ((l.dropWhile Char.isWhitespace).reverse.dropWhile Char.isWhitespace).reverse

/-- Python `str.strip()`. -/
def pyStrip (s : String) : String := String.mk (stripChars s.data)

/-- Python `str.upper()` (basic-latin model, as `Char.toUpper`). -/
def pyUpper (s : String) : String := String.mk (s.data.map Char.toUpper)

/-- strip followed by uppercase — the normalisation in `from_string` and in
the round-trip property of the spec. -/
def pyNormalize (s : String) : String := pyUpper (pyStrip s)

/-- Numeric value of a decimal digit character. -/
def digitVal (c : Char) : Nat := c.toNat - '0'.toNat

/-- Tail of Python `int()` digit parsing: single underscores are permitted
between digits only. `afterUnderscore` records that the previous character
was an underscore. -/
def pyIntDigitsF (acc : Nat) (afterUnderscore : Bool) : List Char → Option Nat
  | [] => if afterUnderscore then none else some acc
  | c :: rest =>
      if c.isDigit then pyIntDigitsF (acc * 10 + digitVal c) false rest
      else if c = '_' then
        if afterUnderscore then none else pyIntDigitsF acc true rest
      else none

/-- The digit run of Python `int()`: must start with a digit. -/
def pyIntCore : List Char → Option Nat
  | [] => none
  | c :: rest => if c.isDigit then pyIntDigitsF (digitVal c) false rest else none

/-- Python `int(s)` for base 10 (ASCII model): strips whitespace, allows one
optional sign, then a digit run with single embedded underscores.  `none`
models the `ValueError`. -/
def pyInt (s : String) : Option Int :=
  match stripChars s.data with
  | '+' :: rest => (pyIntCore rest).map fun (k : Nat) => (k : Int)
  | '-' :: rest => (pyIntCore rest).map fun (k : Nat) => -(k : Int)
  | t => (pyIntCore t).map fun (k : Nat) => (k : Int)

/-- `Coordinates.from_string` from `src/models/entities.py`: strip and
uppercase, require at least two characters, a first character in `A`-`Z`,
an `int()`-parsable remainder, and a row number of at least 1.  A Python
`ValueError` is `none`. -/
def Coordinates.from_string (value : String) : Option Coordinates :=
  match (pyUpper (pyStrip value)).data with
  | [] => none
  | [_] => none
  | c :: rest =>
      if c < 'A' ∨ 'Z' < c then none
      else
        match pyInt (String.mk rest) with
        | none => none
        | some n =>
            if n < 1 then none
            else some ⟨n - 1, (c.toNat : Int) - ('A'.toNat : Int)⟩

/-- The decimal digit characters (used by the model of Python `str(n)`). -/
def digitChar (d : Nat) : Char :=
  match d with
  | 0 => '0'
  | 1 => '1'
  | 2 => '2'
  | 3 => '3'
  | 4 => '4'
  | 5 => '5'
  | 6 => '6'
  | 7 => '7'
  | 8 => '8'
  | _ => '9'

/-- Decimal digits of `n`, most significant first; `fuel` bounds the
recursion depth (any `fuel > n` is enough, see `natReprDigitsF_eq_of_lt`). -/
def natReprDigitsF : Nat → Nat → List Char
  | 0, _ => []
  | fuel + 1, n =>
      if n < 10 then [digitChar n]
      else natReprDigitsF fuel (n / 10) ++ [digitChar (n % 10)]

/-- Decimal digits of `n`, most significant first. -/
def natReprDigits (n : Nat) : List Char := natReprDigitsF (n + 1) n

/-- Python `str(n)` for a non-negative integer: canonical decimal. -/
def natRepr (n : Nat) : String := String.mk (natReprDigits n)

/-- Python `str(i)` for an arbitrary integer (used by the f-string in
`Coordinates.__repr__`). -/
def intRepr (i : Int) : String :=
  if i < 0 then String.mk ('-' :: natReprDigits (-i).toNat)
  else natRepr i.toNat

/-- `Coordinates.__repr__`: `chr(ord("A") + col)` then `row + 1`. -/
def Coordinates.toDisplay (coord : Coordinates) : String :=
  String.mk (Char.ofNat ((('A'.toNat : Int) + coord.col).toNat)
    :: (intRepr (coord.row + 1)).data)

/-- The format-failure condition of `from_string`: fewer than two characters
after stripping, a first character outside `A`-`Z` after uppercasing, or a
remainder that `int()` cannot parse. -/
def coordFormatBad (value : String) : Bool :=
  match (pyUpper (pyStrip value)).data with
  | [] => true
  | [_] => true
  | c :: rest =>
      if c < 'A' ∨ 'Z' < c then true
      else (pyInt (String.mk rest)).isNone

/-- The non-positive-row condition of `from_string`: the remainder parses as
an integer smaller than 1. -/
def coordRowNonPositive (value : String) : Bool :=
  match (pyUpper (pyStrip value)).data with
  | [] => false
  | [_] => false
  | _ :: rest =>
      match pyInt (String.mk rest) with
      | none => false
      | some n => decide (n < 1)


/-! ### The `_gpt_submit` retry loop (`src/_gpt_helpers.py`) -/

/-- `GPT_RETRY_LIMIT` from `src/_gpt_helpers.py`. -/
def GPT_RETRY_LIMIT : Nat := 5

/-- `GPT_RETRY_BACKOFF_TIME_SECONDS` from `src/_gpt_helpers.py`. -/
def GPT_RETRY_BACKOFF_TIME_SECONDS : Nat := 30

/-- The observable outcome of one loop iteration of `_gpt_submit` on the
structured-output path: the API call raises `openai.OpenAIError` (transient
service failure), `json.JSONDecoder().raw_decode` raises a `JSONDecodeError`
(parse failure), or a parsed value is returned.  The numeric payloads stand
for the exception and value objects. -/
inductive AttemptOutcome
  | serviceError (e : Nat)
  | parseFailure (e : Nat)
  | success (v : Nat)
deriving DecidableEq, Repr

/-- How `_gpt_submit` ends: `return`, `raise efail`, or the generic
`ValueError("Unknown error occurred in _gpt_helpers")`. -/
inductive SubmitResult
  | returned (v : Nat)
  | raised (e : Nat)
  | genericError
deriving DecidableEq, Repr

/-- Does an attempt set `efail`? -/
def isFailure : AttemptOutcome → Bool
  | AttemptOutcome.serviceError _ => true
  | AttemptOutcome.parseFailure _ => true
  | AttemptOutcome.success _ => false

/-- The exception object a failing attempt stores in `efail`. -/
def errOf : AttemptOutcome → Nat
  | AttemptOutcome.serviceError e => e
  | AttemptOutcome.parseFailure e => e
  | AttemptOutcome.success v => v

/-- The sleep an attempt performs: `time.sleep(GPT_RETRY_BACKOFF_TIME_SECONDS)`
after a service failure; none after a parse failure or a success. -/
def sleepOf : AttemptOutcome → Option Nat
  | AttemptOutcome.serviceError _ => some GPT_RETRY_BACKOFF_TIME_SECONDS
  | AttemptOutcome.parseFailure _ => none
  | AttemptOutcome.success _ => none

/-- The retry loop of `_gpt_submit`, one list entry per remaining attempt:
return on success; a service failure stores the exception and sleeps the
fixed backoff; a parse failure stores the exception and retries immediately;
an exhausted loop re-raises the last stored failure, or signals the generic
`ValueError` when `efail` is still `None`.  The second component is the
sequence of sleep durations performed, in order. -/
def gptSubmitLoop : List AttemptOutcome → Option Nat → SubmitResult × List Nat
  | [], some e => (SubmitResult.raised e, [])
  | [], none => (SubmitResult.genericError, [])
  | AttemptOutcome.success v :: _, _ => (SubmitResult.returned v, [])
  | AttemptOutcome.serviceError e :: rest, _ =>
      let r := gptSubmitLoop rest (some e)
      (r.1, GPT_RETRY_BACKOFF_TIME_SECONDS :: r.2)
  | AttemptOutcome.parseFailure e :: rest, _ => gptSubmitLoop rest (some e)

/-- `_gpt_submit` with a schema request: `for iretry in range(GPT_RETRY_LIMIT)`
starting from `efail = None`; `attempts i` abstracts what iteration `i`
observes from the external service. -/
def gptSubmit (attempts : Nat → AttemptOutcome) : SubmitResult × List Nat :=
  gptSubmitLoop ((List.range GPT_RETRY_LIMIT).map attempts) none


/-- A run in which every attempt fails (services errors and parse failures
alternating), used as the concrete witness for C5. -/
def exAttempts : Nat → AttemptOutcome :=
  fun i =>
    match i with
    | 0 => AttemptOutcome.serviceError 10
    | 1 => AttemptOutcome.parseFailure 11
    | 2 => AttemptOutcome.serviceError 12
    | 3 => AttemptOutcome.parseFailure 13
    | _ => AttemptOutcome.serviceError 14


/-! ### The heuristic schema compiler
(`JSONSchemaFormat._convert_schema_recursive` in `src/_gpt_helpers.py`) -/

/-- A Python value as seen by the heuristic schema compiler.  `tyStr`,
`tyInt`, `tyFloat`, `tyBool` are the class objects `str`/`int`/`float`/`bool`
used as type placeholders; `pyFloat` models a float literal whose value is
integral (the compiler only `isinstance`-tests floats and copies them
verbatim, so that restriction does not affect the claims).  Output nodes are
also `PyVal` dictionaries, with fields in insertion order. -/
inductive PyVal
  | pyNone
  | pyBool (b : Bool)
  | pyInt (n : Int)
  | pyFloat (n : Int)
  | pyStr (s : String)
  | pyList (xs : List PyVal)
  | pyTuple (xs : List PyVal)
  | pyDict (entries : List (String × PyVal))
  | tyStr
  | tyInt
  | tyFloat
  | tyBool
deriving Repr

/-- `x is None`. -/
def isPyNone : PyVal → Bool
  | PyVal.pyNone => true
  | _ => false

/-- Python truthiness (`if not item`). -/
def pyFalsy : PyVal → Bool
  | PyVal.pyNone => true
  | PyVal.pyBool b => !b
  | PyVal.pyInt n => n == 0
  | PyVal.pyFloat n => n == 0
  | PyVal.pyStr s => s == ""
  | PyVal.pyList xs => xs.isEmpty
  | PyVal.pyTuple xs => xs.isEmpty
  | PyVal.pyDict es => es.isEmpty
  | _ => false

/-- `isinstance(x, (float, int))` — true for int, float and bool instances
(`bool` subclasses `int` in Python), never for the class objects. -/
def isNumInstance : PyVal → Bool
  | PyVal.pyInt _ => true
  | PyVal.pyFloat _ => true
  | PyVal.pyBool _ => true
  | _ => false

/-- `isinstance(x, float)`. -/
def isFloatInstance : PyVal → Bool
  | PyVal.pyFloat _ => true
  | _ => false

/-- `isinstance(x, str)`. -/
def isStrInstance : PyVal → Bool
  | PyVal.pyStr _ => true
  | _ => false

/-- The four loop variables of the tuple-disambiguation pass:
`subschema_description`, `subschema_enum`, `subschema_numrange`,
`subschema_value`.  `(pyNone, pyNone)` is the initial `(None, None)` range. -/
structure TupleScan where
  desc : String
  enum : List PyVal
  numrange : PyVal × PyVal
  value : PyVal

/-- One iteration of the tuple loop of `_convert_schema_recursive`: a falsy
item is a type placeholder; a string is the description; a list of at least
two strings is the enum; a 2-tuple with a numeric member is the (min, max)
range; anything else is the schema value. -/
def scanItem (st : TupleScan) (item : PyVal) : TupleScan :=
  if pyFalsy item then { st with value := item }
  else
    match item with
    | PyVal.pyStr s => { st with desc := s }
    | PyVal.pyList xs =>
        if 2 ≤ xs.length && xs.all isStrInstance then { st with enum := xs }
        else { st with value := item }
    | PyVal.pyTuple [a, b] =>
        if isNumInstance a || isNumInstance b then { st with numrange := (a, b) }
        else { st with value := item }
    | _ => { st with value := item }

/-- The type-inference step: only when the value is still a tuple, an enum
implies the `str` class and a present numeric range overrides it with the
`float` or `int` class. -/
def inferValue (st : TupleScan) : PyVal :=
  match st.value with
  | PyVal.pyTuple xs =>
      let v1 := if 0 < st.enum.length then PyVal.tyStr else PyVal.pyTuple xs
      if !isPyNone st.numrange.1 || !isPyNone st.numrange.2 then
        if isFloatInstance st.numrange.1 || isFloatInstance st.numrange.2 then
          PyVal.tyFloat
        else PyVal.tyInt
      else v1
  | v => v

/-- `TYPEMAP.get(value)` followed by `TYPEMAP.get(type(value))`: class
placeholders hit the first lookup, instances the second; everything else is
`None` and raises the compile error. -/
def typeName : PyVal → Option String
  | PyVal.tyStr => some "string"
  | PyVal.tyInt => some "integer"
  | PyVal.tyFloat => some "number"
  | PyVal.tyBool => some "boolean"
  | PyVal.pyStr _ => some "string"
  | PyVal.pyInt _ => some "integer"
  | PyVal.pyFloat _ => some "number"
  | PyVal.pyBool _ => some "boolean"
  | _ => none

/-- `recretval["description"] = ...` under `if subschema_description:`. -/
def descField (d : String) : List (String × PyVal) :=
  if d ≠ "" then [("description", PyVal.pyStr d)] else []

/-- `recretval["enum"] = ...` under `if subschema_enum:`. -/
def enumField (enm : List PyVal) : List (String × PyVal) :=
  if 0 < enm.length then [("enum", PyVal.pyList enm)] else []

/-- `minValue`/`maxValue`, attached only when the (post-inference) schema
value is an `int`/`float` INSTANCE (`isinstance(subschema_value, (int,
float))` is false for the class placeholders). -/
def rangeFields (value : PyVal) (nr : PyVal × PyVal) : List (String × PyVal) :=
  if isNumInstance value then
    (if !isPyNone nr.1 then [("minValue", nr.1)] else []) ++
    (if !isPyNone nr.2 then [("maxValue", nr.2)] else [])
  else []

/-- `minItems`/`maxItems` on array nodes, taken verbatim from the range. -/
def itemRangeFields (nr : PyVal × PyVal) : List (String × PyVal) :=
  (if !isPyNone nr.1 then [("minItems", nr.1)] else []) ++
  (if !isPyNone nr.2 then [("maxItems", nr.2)] else [])

/-- `_convert_schema_recursive`.  The fuel only bounds the recursion depth
(the Python recursion is structural); `convertSchema` supplies more than
enough.  `Except.error` models the raised `ValueError`s. -/
def convertRec : Nat → PyVal → Except String PyVal
  | 0, _ => Except.error "recursion fuel exhausted"
  | fuel + 1, subschema =>
      let st0 : TupleScan := ⟨"", [], (PyVal.pyNone, PyVal.pyNone), subschema⟩
      let st :=
        match subschema with
        | PyVal.pyTuple items => items.foldl scanItem st0
        | _ => st0
      let value := inferValue st
      match value with
      | PyVal.pyDict es => do
          let props ← es.mapM fun kv =>
            match kv.2 with
            | PyVal.pyStr d =>
                pure (kv.1, PyVal.pyDict
                  [("type", PyVal.pyStr "string"),
                   ("description", PyVal.pyStr d)])
            | v => do
                let node ← convertRec fuel v
                pure (kv.1, node)
          Except.ok (PyVal.pyDict
            ([("type", PyVal.pyStr "object")] ++ descField st.desc ++
              [("additionalProperties", PyVal.pyBool false),
               ("required", PyVal.pyList (es.map fun kv => PyVal.pyStr kv.1)),
               ("properties", PyVal.pyDict props)] ++
              enumField st.enum ++ rangeFields value st.numrange))
      | PyVal.pyList xs =>
          if 2 ≤ xs.length && xs.all isStrInstance then
            Except.ok (PyVal.pyDict
              ([("type", PyVal.pyStr "string")] ++ enumField xs ++
                rangeFields value st.numrange))
          else
            match xs with
            | [] => Except.error "IndexError: list index out of range"
            | exemplar :: _ => do
                let itemsNode ←
                  match exemplar with
                  | PyVal.pyStr d =>
                      pure (PyVal.pyDict
                        [("type", PyVal.pyStr "string"),
                         ("description", PyVal.pyStr d)])
                  | v => convertRec fuel v
                Except.ok (PyVal.pyDict
                  ([("type", PyVal.pyStr "array")] ++ descField st.desc ++
                    itemRangeFields st.numrange ++ [("items", itemsNode)] ++
                    enumField st.enum ++ rangeFields value st.numrange))
      | v =>
          match typeName v with
          | none => Except.error "Unrecognized type for schema value"
          | some tn =>
              Except.ok (PyVal.pyDict
                ([("type", PyVal.pyStr tn)] ++ descField st.desc ++
                  enumField st.enum ++ rangeFields v st.numrange))

mutual

/-- Structural size of a `PyVal`, used only to supply enough fuel. -/
def pySize : PyVal → Nat
  | PyVal.pyList xs => 1 + pySizeList xs
  | PyVal.pyTuple xs => 1 + pySizeList xs
  | PyVal.pyDict es => 1 + pySizeEntries es
  | _ => 1

def pySizeList : List PyVal → Nat
  | [] => 0
  | v :: rest => pySize v + pySizeList rest

def pySizeEntries : List (String × PyVal) → Nat
  | [] => 0
  | kv :: rest => pySize kv.2 + pySizeEntries rest

end

/-- `_convert_schema_recursive` with ample fuel. -/
def convertSchema (s : PyVal) : Except String PyVal :=
  convertRec (pySize s + 1) s



theorem inBounds_mk {rows cols a b : Int} :
    InBounds rows cols ⟨a, b⟩ ↔ (0 ≤ a ∧ a < rows ∧ 0 ≤ b ∧ b < cols) := Iff.rfl

theorem mem_allPositions {rows cols : Int} {p : Position} :
    p ∈ allPositions rows cols ↔ InBounds rows cols p := by
  unfold allPositions
  rw [List.mem_flatMap]
  constructor
  · rintro ⟨r, hr, hp⟩
    rw [List.mem_map] at hp
    obtain ⟨c, hc, rfl⟩ := hp
    rw [List.mem_range] at hr hc
    rw [inBounds_mk]
    omega
  · intro h
    obtain ⟨h1, h2, h3, h4⟩ := h
    refine ⟨p.row.toNat, ?_, ?_⟩
    · rw [List.mem_range]; omega
    · rw [List.mem_map]
      refine ⟨p.col.toNat, by rw [List.mem_range]; omega, ?_⟩
      cases p with
      | mk a b =>
        simp only [Position.mk.injEq]
        simp only [] at h1 h2 h3 h4
        constructor <;> omega

theorem Position.eq_mk_iff {p : Position} {r c : Int} :
    p = (⟨r, c⟩ : Position) ↔ (p.row = r ∧ p.col = c) := by
  cases p; simp [Position.mk.injEq]

theorem valid_iff {b : Board} {row col : Int} :
    b.is_valid_position row col = true ↔ InBounds b.rows b.cols ⟨row, col⟩ := by
  unfold Board.is_valid_position InBounds
  simp [and_assoc]

/-- Reading the updated grid at an arbitrary position. -/
theorem setGrid_apply (g : Int → Int → EntityType) (row col : Int) (t : EntityType)
    (p : Position) :
    setGrid g row col t p.row p.col =
      if p = (⟨row, col⟩ : Position) then t else g p.row p.col := by
  unfold setGrid
  by_cases h : p = (⟨row, col⟩ : Position)
  · rw [if_pos h, if_pos]
    exact Position.eq_mk_iff.1 h
  · rw [if_neg h, if_neg]
    intro hc
    exact h (Position.eq_mk_iff.2 hc)

theorem nodup_append_single {l : List Position} {x : Position}
    (h : l.Nodup) (hx : x ∉ l) : (l ++ [x]).Nodup := by
  simp [List.nodup_append, h, hx]

theorem nodup_allPositions (rows cols : Int) : (allPositions rows cols).Nodup := by
  unfold allPositions
  rw [List.nodup_flatMap]
  constructor
  · intro r _
    refine List.Nodup.map ?_ (List.nodup_range _)
    intro c c' h
    have h2 : (c : Int) = (c' : Int) := congrArg Position.col h
    exact_mod_cast h2
  · refine (List.nodup_range _).pairwise_of_forall_ne ?_
    intro r hr r' hr' hne
    simp only [Function.onFun, List.disjoint_left, List.mem_map, List.mem_range]
    rintro p ⟨c, _, rfl⟩ ⟨c', _, h⟩
    have h2 : (r' : Int) = (r : Int) := congrArg Position.row h
    exact hne (by exact_mod_cast h2.symm)

theorem inv_init (rows cols : Int) : Inv (Board.init rows cols) := by
  refine ⟨List.nodup_nil, List.nodup_nil, ?_, ?_⟩ <;>
    · intro p
      simp [Board.init]

theorem inv_place_ship {b : Board} (row col : Int) (h : Inv b) :
    Inv (b.place_ship row col).1 := by
  obtain ⟨hs, hh, hms, hmh⟩ := h
  unfold Board.place_ship
  split_ifs with h1 h2
  · exact ⟨hs, hh, hms, hmh⟩
  · exact ⟨hs, hh, hms, hmh⟩
  · have hvalid : b.is_valid_position row col = true := by
      cases hv : b.is_valid_position row col
      · exact absurd hv h1
      · rfl
    have hempty : b.grid row col = EntityType.empty := by
      by_contra hc; exact h2 hc
    have hnotmem : (⟨row, col⟩ : Position) ∉ b.ships := by
      intro hc
      have := (hms _).1 hc
      rw [hempty] at this
      exact absurd this.2 (by simp)
    have hnotmemh : (⟨row, col⟩ : Position) ∉ b.hostages := by
      intro hc
      have := (hmh _).1 hc
      rw [hempty] at this
      exact absurd this.2 (by simp)
    refine ⟨nodup_append_single hs hnotmem, hh, ?_, ?_⟩
    · intro p
      simp only [List.mem_append, List.mem_singleton, hms p, setGrid_apply]
      by_cases hp : p = (⟨row, col⟩ : Position)
      · subst hp
        simp [valid_iff.1 hvalid]
      · simp [hp, setGrid_apply]
    · intro p
      simp only [hmh p, setGrid_apply]
      by_cases hp : p = (⟨row, col⟩ : Position)
      · subst hp
        rw [hempty]
        simp [hnotmemh]
      · simp [hp]

theorem inv_place_hostage {b : Board} (row col : Int) (h : Inv b) :
    Inv (b.place_hostage row col).1 := by
  obtain ⟨hs, hh, hms, hmh⟩ := h
  unfold Board.place_hostage
  split_ifs with h1 h2
  · exact ⟨hs, hh, hms, hmh⟩
  · exact ⟨hs, hh, hms, hmh⟩
  · have hvalid : b.is_valid_position row col = true := by
      cases hv : b.is_valid_position row col
      · exact absurd hv h1
      · rfl
    have hempty : b.grid row col = EntityType.empty := by
      by_contra hc; exact h2 hc
    have hnotmem : (⟨row, col⟩ : Position) ∉ b.hostages := by
      intro hc
      have := (hmh _).1 hc
      rw [hempty] at this
      exact absurd this.2 (by simp)
    have hnotmems : (⟨row, col⟩ : Position) ∉ b.ships := by
      intro hc
      have := (hms _).1 hc
      rw [hempty] at this
      exact absurd this.2 (by simp)
    refine ⟨hs, nodup_append_single hh hnotmem, ?_, ?_⟩
    · intro p
      simp only [hms p, setGrid_apply]
      by_cases hp : p = (⟨row, col⟩ : Position)
      · subst hp
        rw [hempty]
        simp [hnotmems]
      · simp [hp]
    · intro p
      simp only [List.mem_append, List.mem_singleton, hmh p, setGrid_apply]
      by_cases hp : p = (⟨row, col⟩ : Position)
      · subst hp
        simp [valid_iff.1 hvalid]
      · simp [hp, setGrid_apply]

theorem inv_execute_fire {b : Board} (row col : Int) (h : Inv b) :
    Inv (b.execute_fire row col).1 := by
  obtain ⟨hs, hh, hms, hmh⟩ := h
  unfold Board.execute_fire
  split_ifs with h1
  · exact ⟨hs, hh, hms, hmh⟩
  · cases hg : b.grid row col with
    | ship =>
        dsimp only
        refine ⟨hs.erase _, hh, ?_, ?_⟩
        · intro p; dsimp only
          rw [hs.mem_erase_iff]
          constructor
          · rintro ⟨hne, hp⟩
            obtain ⟨hib, hgr⟩ := (hms p).1 hp
            refine ⟨hib, ?_⟩
            rw [setGrid_apply, if_neg hne]
            exact hgr
          · rintro ⟨hib, hgr⟩
            rw [setGrid_apply] at hgr
            by_cases hp : p = (⟨row, col⟩ : Position)
            · rw [if_pos hp] at hgr
              exact absurd hgr (by simp)
            · rw [if_neg hp] at hgr
              exact ⟨hp, (hms p).2 ⟨hib, hgr⟩⟩
        · intro p; dsimp only
          rw [hmh p, setGrid_apply]
          by_cases hp : p = (⟨row, col⟩ : Position)
          · subst hp
            simp [hg]
          · rw [if_neg hp]
    | hostage =>
        dsimp only
        refine ⟨hs, hh.erase _, ?_, ?_⟩
        · intro p; dsimp only
          rw [hms p, setGrid_apply]
          by_cases hp : p = (⟨row, col⟩ : Position)
          · subst hp
            simp [hg]
          · rw [if_neg hp]
        · intro p; dsimp only
          rw [hh.mem_erase_iff]
          constructor
          · rintro ⟨hne, hp⟩
            obtain ⟨hib, hgr⟩ := (hmh p).1 hp
            refine ⟨hib, ?_⟩
            rw [setGrid_apply, if_neg hne]
            exact hgr
          · rintro ⟨hib, hgr⟩
            rw [setGrid_apply] at hgr
            by_cases hp : p = (⟨row, col⟩ : Position)
            · rw [if_pos hp] at hgr
              exact absurd hgr (by simp)
            · rw [if_neg hp] at hgr
              exact ⟨hp, (hmh p).2 ⟨hib, hgr⟩⟩
    | empty => exact ⟨hs, hh, hms, hmh⟩
    | chaff => exact ⟨hs, hh, hms, hmh⟩

theorem inv_fire {b : Board} (row : FireRow) (col : Option Int) (h : Inv b) :
    Inv (b.fire row col).1 := by
  cases row with
  | strRow s =>
      simp only [Board.fire]
      repeat' split
      all_goals first
        | exact h
        | exact inv_execute_fire _ _ h
  | intRow i =>
      cases col with
      | none => exact h
      | some c => exact inv_execute_fire _ _ h
  | coordRow c =>
      cases col with
      | none => exact h
      | some c2 => exact h

theorem inv_move_entity {b : Board} (from_row from_col to_row to_col : Int)
    (h : Inv b) : Inv (b.move_entity from_row from_col to_row to_col).1 := by
  obtain ⟨hs, hh, hms, hmh⟩ := h
  unfold Board.move_entity
  by_cases h1 : b.is_valid_position from_row from_col = false
  · rw [if_pos h1]; exact ⟨hs, hh, hms, hmh⟩
  rw [if_neg h1]
  by_cases h2 : b.is_valid_position to_row to_col = false
  · rw [if_pos h2]; exact ⟨hs, hh, hms, hmh⟩
  rw [if_neg h2]
  have hvf : b.is_valid_position from_row from_col = true := by
    cases hv : b.is_valid_position from_row from_col
    · exact absurd hv h1
    · rfl
  have hvt : b.is_valid_position to_row to_col = true := by
    cases hv : b.is_valid_position to_row to_col
    · exact absurd hv h2
    · rfl
  cases hg : b.grid from_row from_col with
  | empty => exact ⟨hs, hh, hms, hmh⟩
  | ship =>
      dsimp only
      by_cases h3 : b.grid to_row to_col ≠ EntityType.empty
      · rw [if_pos h3]; exact ⟨hs, hh, hms, hmh⟩
      rw [if_neg h3]
      have hto : b.grid to_row to_col = EntityType.empty := by
        by_contra hc; exact h3 hc
      have hmemold : (⟨from_row, from_col⟩ : Position) ∈ b.ships :=
        (hms _).2 ⟨valid_iff.1 hvf, hg⟩
      have hnotnew : (⟨to_row, to_col⟩ : Position) ∉ b.ships := by
        intro hc
        have := ((hms _).1 hc).2
        rw [hto] at this
        exact absurd this (by simp)
      have hnotnewh : (⟨to_row, to_col⟩ : Position) ∉ b.hostages := by
        intro hc
        have := ((hmh _).1 hc).2
        rw [hto] at this
        exact absurd this (by simp)
      refine ⟨nodup_append_single (hs.erase _)
          (fun hc => hnotnew (List.mem_of_mem_erase hc)), hh, ?_, ?_⟩
      · intro p; dsimp only
        rw [List.mem_append, List.mem_singleton, hs.mem_erase_iff,
            setGrid_apply]
        by_cases hpn : p = (⟨to_row, to_col⟩ : Position)
        · subst hpn
          simp [valid_iff.1 hvt]
        · rw [if_neg hpn, setGrid_apply]
          by_cases hpo : p = (⟨from_row, from_col⟩ : Position)
          · subst hpo
            simp only [if_pos rfl]
            simp [hpn, hg, valid_iff.1 hvf, hmemold]
          · rw [if_neg hpo]
            simp [hpn, hpo, hms p]
      · intro p; dsimp only
        rw [hmh p, setGrid_apply]
        by_cases hpn : p = (⟨to_row, to_col⟩ : Position)
        · subst hpn
          simp [hto, hnotnewh]
        · rw [if_neg hpn, setGrid_apply]
          by_cases hpo : p = (⟨from_row, from_col⟩ : Position)
          · subst hpo
            simp [hg, hmh]
          · rw [if_neg hpo]
  | hostage =>
      dsimp only
      by_cases h3 : b.grid to_row to_col ≠ EntityType.empty
      · rw [if_pos h3]; exact ⟨hs, hh, hms, hmh⟩
      rw [if_neg h3]
      have hto : b.grid to_row to_col = EntityType.empty := by
        by_contra hc; exact h3 hc
      have hmemold : (⟨from_row, from_col⟩ : Position) ∈ b.hostages :=
        (hmh _).2 ⟨valid_iff.1 hvf, hg⟩
      have hnotnew : (⟨to_row, to_col⟩ : Position) ∉ b.hostages := by
        intro hc
        have := ((hmh _).1 hc).2
        rw [hto] at this
        exact absurd this (by simp)
      have hnotnews : (⟨to_row, to_col⟩ : Position) ∉ b.ships := by
        intro hc
        have := ((hms _).1 hc).2
        rw [hto] at this
        exact absurd this (by simp)
      refine ⟨hs, nodup_append_single (hh.erase _)
          (fun hc => hnotnew (List.mem_of_mem_erase hc)), ?_, ?_⟩
      · intro p; dsimp only
        rw [hms p, setGrid_apply]
        by_cases hpn : p = (⟨to_row, to_col⟩ : Position)
        · subst hpn
          simp [hto, hnotnews]
        · rw [if_neg hpn, setGrid_apply]
          by_cases hpo : p = (⟨from_row, from_col⟩ : Position)
          · subst hpo
            simp [hg, hms]
          · rw [if_neg hpo]
      · intro p; dsimp only
        rw [List.mem_append, List.mem_singleton, hh.mem_erase_iff,
            setGrid_apply]
        by_cases hpn : p = (⟨to_row, to_col⟩ : Position)
        · subst hpn
          simp [valid_iff.1 hvt]
        · rw [if_neg hpn, setGrid_apply]
          by_cases hpo : p = (⟨from_row, from_col⟩ : Position)
          · subst hpo
            simp only [if_pos rfl]
            simp [hpn, hg, valid_iff.1 hvf, hmemold]
          · rw [if_neg hpo]
            simp [hpn, hpo, hmh p]
  | chaff =>
      dsimp only
      by_cases h3 : b.grid to_row to_col ≠ EntityType.empty
      · rw [if_pos h3]; exact ⟨hs, hh, hms, hmh⟩
      rw [if_neg h3]
      have hto : b.grid to_row to_col = EntityType.empty := by
        by_contra hc; exact h3 hc
      refine ⟨hs, hh, ?_, ?_⟩
      · intro p; dsimp only
        rw [hms p, setGrid_apply]
        by_cases hpn : p = (⟨to_row, to_col⟩ : Position)
        · subst hpn
          simp only [if_pos rfl]
          constructor
          · rintro ⟨_, hgr⟩
            rw [hto] at hgr
            exact absurd hgr (by simp)
          · rintro ⟨_, hgr⟩
            exact absurd hgr (by simp)
        · rw [if_neg hpn, setGrid_apply]
          by_cases hpo : p = (⟨from_row, from_col⟩ : Position)
          · subst hpo
            simp [hg]
          · rw [if_neg hpo]
      · intro p; dsimp only
        rw [hmh p, setGrid_apply]
        by_cases hpn : p = (⟨to_row, to_col⟩ : Position)
        · subst hpn
          simp only [if_pos rfl]
          constructor
          · rintro ⟨_, hgr⟩
            rw [hto] at hgr
            exact absurd hgr (by simp)
          · rintro ⟨_, hgr⟩
            exact absurd hgr (by simp)
        · rw [if_neg hpn, setGrid_apply]
          by_cases hpo : p = (⟨from_row, from_col⟩ : Position)
          · subst hpo
            simp [hg]
          · rw [if_neg hpo]

theorem inv_reachable {b : Board} (h : Reachable b) : Inv b := by
  induction h with
  | init rows cols => exact inv_init rows cols
  | place_ship row col _ ih => exact inv_place_ship row col ih
  | place_hostage row col _ ih => exact inv_place_hostage row col ih
  | fire row col _ ih => exact inv_fire row col ih
  | move_entity fr fc tr tc _ ih => exact inv_move_entity fr fc tr tc ih

theorem length_eq_of_nodup_of_mem_iff {l1 l2 : List Position} (h1 : l1.Nodup)
    (h2 : l2.Nodup) (h : ∀ x, x ∈ l1 ↔ x ∈ l2) : l1.length = l2.length := by
  rw [← List.toFinset_card_of_nodup h1, ← List.toFinset_card_of_nodup h2]
  congr 1
  ext x
  simp only [List.mem_toFinset]
  exact h x

theorem execute_fire_snd {b : Board} {row col : Int}
    (hv : b.is_valid_position row col = true) :
    (b.execute_fire row col).2 = some (b.grid row col) := by
  unfold Board.execute_fire
  rw [hv]
  cases hg : b.grid row col <;> simp

/-- Claim C1: `check_endgame()` returns Win whenever `ships_remaining() == 0`
(checked strictly before Lose, so Win also when both counts are zero), Lose
when ships remain but `hostages_remaining() == 0`, and InProgress otherwise. -/
theorem check_endgame_priority (b : Board) :
    (b.ships_remaining = 0 → b.check_endgame = EndgameStatus.win) ∧
    (b.ships_remaining ≠ 0 → b.hostages_remaining = 0 →
        b.check_endgame = EndgameStatus.lose) ∧
    (b.ships_remaining ≠ 0 → b.hostages_remaining ≠ 0 →
        b.check_endgame = EndgameStatus.inProgress) := by
  unfold Board.check_endgame
  exact ⟨fun h => by rw [if_pos h],
    fun h1 h2 => by rw [if_neg h1, if_pos h2],
    fun h1 h2 => by rw [if_neg h1, if_neg h2]⟩

/-- Witness for C1: an empty board (both counts zero) is a Win; a board with
one ship and no hostage is a Lose; a board with one ship and one hostage is
in progress. -/
theorem check_endgame_priority_witness :
    (Board.init 8 8).check_endgame = EndgameStatus.win ∧
    ((Board.init 8 8).place_ship 0 0).1.check_endgame = EndgameStatus.lose ∧
    (((Board.init 8 8).place_ship 0 0).1.place_hostage 0 1).1.check_endgame
        = EndgameStatus.inProgress :=
  ⟨(check_endgame_priority _).1 rfl,
   (check_endgame_priority _).2.1 (by decide) rfl,
   (check_endgame_priority _).2.2 (by decide) (by decide)⟩

/-- Claim C3: in every state reachable from the constructor through
`place_ship`, `place_hostage`, `fire` and `move_entity`, `ships_remaining()`
and `hostages_remaining()` equal the counts a full grid scan would produce. -/
theorem counts_match_grid_scan {b : Board} (h : Reachable b) :
    b.ships_remaining = b.scanCount EntityType.ship ∧
    b.hostages_remaining = b.scanCount EntityType.hostage := by
  obtain ⟨hs, hh, hms, hmh⟩ := inv_reachable h
  unfold Board.ships_remaining Board.hostages_remaining Board.scanCount
  constructor
  · apply length_eq_of_nodup_of_mem_iff hs ((nodup_allPositions _ _).filter _)
    intro x
    rw [hms x, List.mem_filter, mem_allPositions]
    simp
  · apply length_eq_of_nodup_of_mem_iff hh ((nodup_allPositions _ _).filter _)
    intro x
    rw [hmh x, List.mem_filter, mem_allPositions]
    simp

/-- Witness for C3 at a concrete reachable state: one placed ship, one placed
hostage, then a fire that removes the ship. -/
theorem counts_match_grid_scan_witness :
    ((((Board.init 8 8).place_ship 1 2).1.place_hostage 3 4).1.fire
          (FireRow.intRow 1) (some 2)).1.ships_remaining
        = ((((Board.init 8 8).place_ship 1 2).1.place_hostage 3 4).1.fire
          (FireRow.intRow 1) (some 2)).1.scanCount EntityType.ship ∧
    ((((Board.init 8 8).place_ship 1 2).1.place_hostage 3 4).1.fire
          (FireRow.intRow 1) (some 2)).1.hostages_remaining
        = ((((Board.init 8 8).place_ship 1 2).1.place_hostage 3 4).1.fire
          (FireRow.intRow 1) (some 2)).1.scanCount EntityType.hostage :=
  counts_match_grid_scan
    (Reachable.fire (FireRow.intRow 1) (some 2)
      (Reachable.place_hostage 3 4 (Reachable.place_ship 1 2 (Reachable.init 8 8))))

theorem fire_empty_cell {b : Board} {row col : Int}
    (hv : b.is_valid_position row col = true)
    (he : b.grid row col = EntityType.empty) :
    (b.fire (FireRow.intRow row) (some col)).2
        = FireCallResult.ret (some EntityType.empty) := by
  simp [Board.fire, Board.execute_fire, hv, he]

/-- Claim C4: firing an in-bounds Ship cell returns Ship, empties the cell,
decrements `ships_remaining()` by exactly one, and a second fire at the same
coordinate returns Empty. -/
theorem fire_ship_cell {b : Board} (row col : Int) (h : Reachable b)
    (hv : b.is_valid_position row col = true)
    (hship : b.grid row col = EntityType.ship) :
    (b.fire (FireRow.intRow row) (some col)).2
        = FireCallResult.ret (some EntityType.ship) ∧
    (b.fire (FireRow.intRow row) (some col)).1.grid row col = EntityType.empty ∧
    (b.fire (FireRow.intRow row) (some col)).1.ships_remaining + 1
        = b.ships_remaining ∧
    ((b.fire (FireRow.intRow row) (some col)).1.fire (FireRow.intRow row)
        (some col)).2 = FireCallResult.ret (some EntityType.empty) := by
  have hmem : (⟨row, col⟩ : Position) ∈ b.ships :=
    ((inv_reachable h).2.2.1 _).2 ⟨valid_iff.1 hv, hship⟩
  have hpos : 0 < b.ships.length := List.length_pos_of_mem hmem
  have hlen := List.length_erase_of_mem hmem
  have hfire : b.fire (FireRow.intRow row) (some col)
      = ({ b with grid := setGrid b.grid row col EntityType.empty,
                  ships := b.ships.erase ⟨row, col⟩ },
         FireCallResult.ret (some EntityType.ship)) := by
    simp [Board.fire, Board.execute_fire, hv, hship]
  rw [hfire]
  have hcell : setGrid b.grid row col EntityType.empty row col
      = EntityType.empty := by
    unfold setGrid
    simp
  refine ⟨rfl, hcell, ?_, ?_⟩
  · show (b.ships.erase (⟨row, col⟩ : Position)).length + 1 = b.ships.length
    omega
  · exact fire_empty_cell hv hcell

/-- Witness for C4: a ship placed at row 1, col 2 on an 8×8 board. -/
theorem fire_ship_cell_witness :
    (((Board.init 8 8).place_ship 1 2).1.fire (FireRow.intRow 1) (some 2)).2
        = FireCallResult.ret (some EntityType.ship) ∧
    (((Board.init 8 8).place_ship 1 2).1.fire (FireRow.intRow 1)
        (some 2)).1.grid 1 2 = EntityType.empty ∧
    (((Board.init 8 8).place_ship 1 2).1.fire (FireRow.intRow 1)
        (some 2)).1.ships_remaining + 1
        = ((Board.init 8 8).place_ship 1 2).1.ships_remaining ∧
    ((((Board.init 8 8).place_ship 1 2).1.fire (FireRow.intRow 1)
        (some 2)).1.fire (FireRow.intRow 1) (some 2)).2
        = FireCallResult.ret (some EntityType.empty) :=
  fire_ship_cell 1 2 (Reachable.place_ship 1 2 (Reachable.init 8 8))
    (by decide) (by decide)

/-- Claim C9 (implicit): calling `Board.fire` the way the game loop does —
a single `Coordinates` argument, no `col` — hits the `col is None` early
return: it returns `None` and leaves the board (grid, ships, hostages)
completely unchanged; the denoted cell is never fired at. -/
theorem fire_coordinates_arg_returns_none (b : Board) (c : Coordinates) :
    b.fire (FireRow.coordRow c) none = (b, FireCallResult.ret none) := rfl

theorem noChaff_setGrid {g : Int → Int → EntityType} {row col : Int}
    {t : EntityType} (hg : ∀ r c, g r c ≠ EntityType.chaff)
    (ht : t ≠ EntityType.chaff) :
    ∀ r c, setGrid g row col t r c ≠ EntityType.chaff := by
  intro r c
  unfold setGrid
  split
  · exact ht
  · exact hg r c

theorem noChaff_execute_fire {b : Board} (row col : Int) (h : NoChaff b) :
    NoChaff (b.execute_fire row col).1 := by
  unfold Board.execute_fire
  split_ifs with h1
  · exact h
  · cases hg : b.grid row col with
    | ship => exact noChaff_setGrid h (by simp)
    | hostage => exact noChaff_setGrid h (by simp)
    | empty => exact h
    | chaff => exact absurd hg (h row col)

theorem noChaff_fire {b : Board} (row : FireRow) (col : Option Int)
    (h : NoChaff b) : NoChaff (b.fire row col).1 := by
  cases row with
  | strRow s =>
      simp only [Board.fire]
      repeat' split
      all_goals first
        | exact h
        | exact noChaff_execute_fire _ _ h
  | intRow i =>
      cases col with
      | none => exact h
      | some c => exact noChaff_execute_fire _ _ h
  | coordRow c =>
      cases col with
      | none => exact h
      | some c2 => exact h

theorem noChaff_move_entity {b : Board} (fr fc tr tc : Int) (h : NoChaff b) :
    NoChaff (b.move_entity fr fc tr tc).1 := by
  unfold Board.move_entity
  by_cases h1 : b.is_valid_position fr fc = false
  · rw [if_pos h1]; exact h
  rw [if_neg h1]
  by_cases h2 : b.is_valid_position tr tc = false
  · rw [if_pos h2]; exact h
  rw [if_neg h2]
  cases hg : b.grid fr fc with
  | empty => exact h
  | ship =>
      dsimp only
      by_cases h3 : b.grid tr tc ≠ EntityType.empty
      · rw [if_pos h3]; exact h
      rw [if_neg h3]
      exact noChaff_setGrid (noChaff_setGrid h (by simp)) (by simp)
  | hostage =>
      dsimp only
      by_cases h3 : b.grid tr tc ≠ EntityType.empty
      · rw [if_pos h3]; exact h
      rw [if_neg h3]
      exact noChaff_setGrid (noChaff_setGrid h (by simp)) (by simp)
  | chaff => exact absurd hg (h fr fc)

theorem noChaff_reachable {b : Board} (h : Reachable b) : NoChaff b := by
  induction h with
  | init rows cols =>
      intro r c
      simp [Board.init]
  | place_ship row col _ ih =>
      unfold Board.place_ship
      split_ifs
      · exact ih
      · exact ih
      · exact noChaff_setGrid ih (by simp)
  | place_hostage row col _ ih =>
      unfold Board.place_hostage
      split_ifs
      · exact ih
      · exact ih
      · exact noChaff_setGrid ih (by simp)
  | fire row col _ ih => exact noChaff_fire row col ih
  | move_entity fr fc tr tc _ ih => exact noChaff_move_entity fr fc tr tc ih

theorem execute_fire_ne_chaff {b : Board} (row col : Int) (h : NoChaff b) :
    (b.execute_fire row col).2 ≠ some EntityType.chaff := by
  unfold Board.execute_fire
  split_ifs with h1
  · simp
  · cases hg : b.grid row col with
    | ship => simp
    | hostage => simp
    | empty => simp
    | chaff => exact absurd hg (h row col)

/-- Claim C10 (implicit): in every reachable board state no grid cell ever
holds `EntityType.CHAFF`, and consequently `Board.fire` can never return
`CHAFF` — the game loop's chaff-hit branch is unreachable through `Board`'s
own operations. -/
theorem fire_snd_cases (b : Board) (row : FireRow) (col : Option Int) :
    (b.fire row col).2 = FireCallResult.ret none ∨
    (b.fire row col).2 = FireCallResult.typeError ∨
    ∃ r c : Int, (b.fire row col).2 = FireCallResult.ret ((b.execute_fire r c).2) := by
  cases row with
  | strRow s =>
      simp only [Board.fire]
      repeat' split
      all_goals first
        | exact Or.inl rfl
        | exact Or.inr (Or.inl rfl)
        | exact Or.inr (Or.inr ⟨_, _, rfl⟩)
  | intRow i =>
      cases col with
      | none => exact Or.inl rfl
      | some c => exact Or.inr (Or.inr ⟨i, c, rfl⟩)
  | coordRow c =>
      cases col with
      | none => exact Or.inl rfl
      | some c2 => exact Or.inr (Or.inl rfl)

/-- Claim C10 (implicit): in every reachable board state no grid cell ever
holds `EntityType.CHAFF`, and consequently `Board.fire` can never return
`CHAFF` — the game loop's chaff-hit branch is unreachable through `Board`'s
own operations. -/
theorem chaff_never_on_grid {b : Board} (h : Reachable b) :
    (∀ r c : Int, b.grid r c ≠ EntityType.chaff) ∧
    (∀ (row : FireRow) (col : Option Int),
        (b.fire row col).2 ≠ FireCallResult.ret (some EntityType.chaff)) := by
  have hnc := noChaff_reachable h
  refine ⟨hnc, ?_⟩
  intro row col
  rcases fire_snd_cases b row col with hcase | hcase | ⟨r, c, hcase⟩ <;> rw [hcase]
  · simp
  · simp
  · intro hc
    injection hc with hc2
    exact execute_fire_ne_chaff _ _ hnc hc2

/-- Witness for C10 at a concrete reachable state (a board with one ship,
fired at with the string form "A1"). -/
theorem chaff_never_on_grid_witness :
    (((Board.init 8 8).place_ship 0 0).1.grid 0 0 ≠ EntityType.chaff) ∧
    ((((Board.init 8 8).place_ship 0 0).1.fire (FireRow.strRow "A1")
        none).2 ≠ FireCallResult.ret (some EntityType.chaff)) :=
  ⟨(chaff_never_on_grid (Reachable.place_ship 0 0 (Reachable.init 8 8))).1 0 0,
   (chaff_never_on_grid (Reachable.place_ship 0 0 (Reachable.init 8 8))).2
     (FireRow.strRow "A1") none⟩

/-- Claim C2: firing a shielded in-bounds cell returns Shielded, consumes the
shield, and leaves the underlying board untouched; after the next
`start_turn()` clears the shield, firing the same coordinate returns the
original underlying cell content. -/
theorem shielded_fire_blocks_then_reveals {sb : ShieldedBoard} {row col : Int}
    (hv : sb.board.is_valid_position row col = true)
    (hsh : sb.shield = some ⟨row, col⟩) :
    sb.fire row col = (⟨sb.board, none⟩, FireOutcome.shielded) ∧
    (((sb.fire row col).1.start_turn).fire row col).2
        = FireOutcome.content (sb.board.grid row col) := by
  have h1 : sb.fire row col = (⟨sb.board, none⟩, FireOutcome.shielded) := by
    unfold ShieldedBoard.fire
    rw [hv]
    simp [hsh]
  refine ⟨h1, ?_⟩
  rw [h1]
  unfold ShieldedBoard.start_turn ShieldedBoard.fire
  dsimp only
  rw [hv]
  simp only [Bool.true_eq_false, if_false]
  have h2 := execute_fire_snd hv
  cases he : sb.board.execute_fire row col with
  | mk b2 o =>
      rw [he] at h2
      dsimp only at h2
      subst h2
      simp

/-- Witness for C2: the spec scenario — a hostage sits under a shield at
row 3, col 3 ("D4"); the first fire is blocked, the second (after
`start_turn`) hits the hostage. -/
theorem shielded_fire_blocks_then_reveals_witness :
    (⟨((Board.init 8 8).place_hostage 3 3).1, some ⟨3, 3⟩⟩ : ShieldedBoard).fire 3 3
        = (⟨((Board.init 8 8).place_hostage 3 3).1, none⟩, FireOutcome.shielded) ∧
    ((((⟨((Board.init 8 8).place_hostage 3 3).1, some ⟨3, 3⟩⟩ : ShieldedBoard).fire
        3 3).1.start_turn).fire 3 3).2 = FireOutcome.content EntityType.hostage := by
  have h := @shielded_fire_blocks_then_reveals
    ⟨((Board.init 8 8).place_hostage 3 3).1, some ⟨3, 3⟩⟩ 3 3 (by decide) rfl
  exact ⟨h.1, by rw [h.2]; decide⟩

/-- Counterexample to claim C6 as stated: "I1" has a column letter beyond the
declared 8 columns of the board, yet `from_string` accepts it and yields
column index 8, which is out of bounds for the 8×8 board. -/
theorem from_string_accepts_out_of_range_column :
    Coordinates.from_string "I1" = some ⟨0, 8⟩ ∧
    (Board.init 8 8).is_valid_position 0 8 = false :=
  ⟨by decide, by decide⟩

/-- Claim C6 (amended): parsing fails exactly when the stripped, uppercased
text is shorter than two characters, its first character is not a letter
`A`-`Z`, the remainder does not parse as an integer, or the parsed number is
smaller than 1 — the board's declared column range is not consulted. -/
theorem from_string_fails_iff (value : String) :
    (Coordinates.from_string value).isNone
      = (coordFormatBad value || coordRowNonPositive value) := by
  unfold Coordinates.from_string coordFormatBad coordRowNonPositive
  cases hd : (pyUpper (pyStrip value)).data with
  | nil => rfl
  | cons c rest =>
      cases rest with
      | nil => rfl
      | cons c2 rest2 =>
          dsimp only
          by_cases hc : c < 'A' ∨ 'Z' < c
          · rw [if_pos hc, if_pos hc]
            simp
          · rw [if_neg hc, if_neg hc]
            cases hp : pyInt (String.mk (c2 :: rest2)) with
            | none => simp
            | some n =>
                dsimp only
                by_cases hn : n < 1
                · rw [if_pos hn]
                  simp [hn]
                · rw [if_neg hn]
                  simp [hn]

theorem char_toNat_ofNat {n : Nat} (h : n < 55296) : (Char.ofNat n).toNat = n := by
  have hv : n.isValidChar := Or.inl h
  unfold Char.ofNat
  rw [dif_pos hv]
  unfold Char.ofNatAux
  simp [Char.toNat, UInt32.toNat, UInt32.ofNatCore]

theorem digitChar_props (d : Nat) :
    (digitChar d).isDigit = true ∧ (digitChar d).isWhitespace = false ∧
    (digitChar d).toUpper = digitChar d ∧ digitChar d ≠ '+' ∧ digitChar d ≠ '-' := by
  unfold digitChar
  split <;> exact ⟨by decide, by decide, by decide, by decide, by decide⟩

theorem digitVal_digitChar (d : Nat) (h : d ≤ 9) : digitVal (digitChar d) = d := by
  interval_cases d <;> decide

theorem not_ws_of_ge {c : Char} (h : 48 ≤ c.toNat) : c.isWhitespace = false := by
  unfold Char.isWhitespace
  have h1 : c ≠ ' ' := fun hc => absurd h (by subst hc; decide)
  have h2 : c ≠ '\t' := fun hc => absurd h (by subst hc; decide)
  have h3 : c ≠ '\r' := fun hc => absurd h (by subst hc; decide)
  have h4 : c ≠ '\n' := fun hc => absurd h (by subst hc; decide)
  simp [h1, h2, h3, h4]

theorem natReprDigitsF_ne_nil (fuel n : Nat) (h : n < fuel) :
    natReprDigitsF fuel n ≠ [] := by
  cases fuel with
  | zero => omega
  | succ fuel =>
      unfold natReprDigitsF
      by_cases h10 : n < 10
      · rw [if_pos h10]; simp
      · rw [if_neg h10]; simp

theorem exists_digitChar_of_mem (fuel : Nat) : ∀ n c, n < fuel →
    c ∈ natReprDigitsF fuel n → ∃ d, c = digitChar d := by
  induction fuel with
  | zero => intro n c h; omega
  | succ fuel ih =>
      intro n c h hc
      unfold natReprDigitsF at hc
      by_cases h10 : n < 10
      · rw [if_pos h10, List.mem_singleton] at hc
        exact ⟨n, hc⟩
      · rw [if_neg h10, List.mem_append, List.mem_singleton] at hc
        rcases hc with hc | hc
        · exact ih (n / 10) c (by omega) hc
        · exact ⟨n % 10, hc⟩

theorem foldl_natReprDigitsF (fuel : Nat) : ∀ n acc, n < fuel →
    (natReprDigitsF fuel n).foldl (fun a c => a * 10 + digitVal c) acc
      = acc * 10 ^ (natReprDigitsF fuel n).length + n := by
  induction fuel with
  | zero => intro n acc h; omega
  | succ fuel ih =>
      intro n acc h
      unfold natReprDigitsF
      by_cases h10 : n < 10
      · rw [if_pos h10]
        simp only [List.foldl_cons, List.foldl_nil, List.length_singleton,
          pow_one]
        rw [digitVal_digitChar n (by omega)]
      · rw [if_neg h10]
        rw [List.foldl_append]
        rw [ih (n / 10) acc (by omega)]
        simp only [List.foldl_cons, List.foldl_nil, List.length_append,
          List.length_singleton]
        rw [digitVal_digitChar (n % 10) (by omega)]
        rw [pow_succ, ← mul_assoc]
        omega

theorem pyIntDigitsF_digits (ds : List Char) : ∀ acc,
    (∀ c ∈ ds, c.isDigit = true) →
    pyIntDigitsF acc false ds
      = some (ds.foldl (fun a c => a * 10 + digitVal c) acc) := by
  induction ds with
  | nil =>
      intro acc _
      rfl
  | cons c rest ih =>
      intro acc h
      unfold pyIntDigitsF
      rw [if_pos (h c (List.mem_cons_self c rest))]
      rw [ih _ (fun d hd => h d (List.mem_cons_of_mem c hd))]
      rfl

theorem natReprDigits_all_digits (n : Nat) :
    ∀ c ∈ natReprDigits n, c.isDigit = true := by
  intro c hc
  obtain ⟨d, rfl⟩ := exists_digitChar_of_mem (n + 1) n c (by omega) hc
  exact (digitChar_props d).1

theorem pyIntCore_natReprDigits (n : Nat) :
    pyIntCore (natReprDigits n) = some n := by
  cases hd : natReprDigits n with
  | nil => exact absurd hd (natReprDigitsF_ne_nil (n + 1) n (by omega))
  | cons c rest =>
      have hall : ∀ x ∈ natReprDigits n, x.isDigit = true :=
        natReprDigits_all_digits n
      rw [hd] at hall
      unfold pyIntCore
      dsimp only
      rw [if_pos (hall c (List.mem_cons_self c rest))]
      rw [pyIntDigitsF_digits rest _ (fun d hdm => hall d (List.mem_cons_of_mem c hdm))]
      have h0 := foldl_natReprDigitsF (n + 1) n 0 (by omega)
      have hd2 : natReprDigitsF (n + 1) n = c :: rest := hd
      rw [hd2] at h0
      simp only [List.foldl_cons] at h0
      have hz : (0 : Nat) * 10 + digitVal c = digitVal c := by omega
      rw [hz] at h0
      rw [h0]
      simp

theorem dropWhile_ws_eq_self {l : List Char}
    (h : ∀ c ∈ l, c.isWhitespace = false) :
    l.dropWhile Char.isWhitespace = l := by
  cases l with
  | nil => rfl
  | cons c rest =>
      rw [List.dropWhile_cons]
      rw [h c (List.mem_cons_self c rest)]
      simp

theorem stripChars_eq_self {l : List Char}
    (h : ∀ c ∈ l, c.isWhitespace = false) : stripChars l = l := by
  unfold stripChars
  rw [dropWhile_ws_eq_self h]
  rw [dropWhile_ws_eq_self (fun c hc => h c (List.mem_reverse.1 hc))]
  exact List.reverse_reverse l

theorem map_toUpper_eq_self {l : List Char}
    (h : ∀ c ∈ l, c.toUpper = c) : l.map Char.toUpper = l := by
  induction l with
  | nil => rfl
  | cons c rest ih =>
      rw [List.map_cons, h c (List.mem_cons_self c rest),
        ih (fun d hd => h d (List.mem_cons_of_mem c hd))]

/-- Counterexample to claim C7 as stated: "B06" is a letter followed by a
positive integer — `from_string` accepts it — but formatting the parsed
coordinate yields "B6", which differs from the normalised original "B06". -/
theorem roundtrip_fails_on_leading_zero :
    Coordinates.from_string "B06" = some ⟨5, 1⟩ ∧
    Coordinates.toDisplay ⟨5, 1⟩ = "B6" ∧
    pyNormalize "B06" = "B06" ∧
    ("B6" : String) ≠ "B06" :=
  ⟨by decide, by decide, by decide, by decide⟩

/-- Claim C7 (amended): the round-trip `toDisplay ∘ from_string = pyNormalize`
holds for canonical coordinate texts — a basic-latin letter followed by the
canonical decimal numeral of a positive number (no leading zeros, sign,
inner whitespace, or underscores). -/
theorem format_parse_roundtrip (ch : Char) (n : Nat)
    (hch : (65 ≤ ch.toNat ∧ ch.toNat ≤ 90) ∨ (97 ≤ ch.toNat ∧ ch.toNat ≤ 122))
    (hn : 1 ≤ n) :
    Coordinates.from_string (String.mk (ch :: natReprDigits n))
        = some ⟨(n : Int) - 1,
            (ch.toUpper.toNat : Int) - ('A'.toNat : Int)⟩ ∧
    Coordinates.toDisplay
        ⟨(n : Int) - 1, (ch.toUpper.toNat : Int) - ('A'.toNat : Int)⟩
        = pyNormalize (String.mk (ch :: natReprDigits n)) := by
  have hws : ∀ c ∈ ch :: natReprDigits n, c.isWhitespace = false := by
    intro c hc
    rcases List.mem_cons.1 hc with rfl | hc
    · exact not_ws_of_ge (by omega)
    · obtain ⟨d, rfl⟩ := exists_digitChar_of_mem (n + 1) n c (by omega) hc
      exact (digitChar_props d).2.1
  have hupperds : (natReprDigits n).map Char.toUpper = natReprDigits n := by
    apply map_toUpper_eq_self
    intro c hc
    obtain ⟨d, rfl⟩ := exists_digitChar_of_mem (n + 1) n c (by omega) hc
    exact (digitChar_props d).2.2.1
  have hnorm : pyNormalize (String.mk (ch :: natReprDigits n))
      = String.mk (ch.toUpper :: natReprDigits n) := by
    unfold pyNormalize pyStrip pyUpper
    rw [show (String.mk (ch :: natReprDigits n)).data
        = ch :: natReprDigits n from rfl, stripChars_eq_self hws]
    rw [show (String.mk (ch :: natReprDigits n)).data
        = ch :: natReprDigits n from rfl, List.map_cons, hupperds]
  have htoUpper : ch.toUpper = if ch.toNat ≥ 97 ∧ ch.toNat ≤ 122
      then Char.ofNat (ch.toNat - 32) else ch := rfl
  have hU : 65 ≤ ch.toUpper.toNat ∧ ch.toUpper.toNat ≤ 90 := by
    rw [htoUpper]
    rcases hch with ⟨h1, h2⟩ | ⟨h1, h2⟩
    · rw [if_neg (by omega)]
      omega
    · rw [if_pos ⟨h1, h2⟩]
      rw [char_toNat_ofNat (by omega)]
      omega
  have hdata : (pyUpper (pyStrip (String.mk (ch :: natReprDigits n)))).data
      = ch.toUpper :: natReprDigits n := by
    rw [show pyUpper (pyStrip (String.mk (ch :: natReprDigits n)))
        = pyNormalize (String.mk (ch :: natReprDigits n)) from rfl]
    rw [hnorm]
  obtain ⟨d0, ds2, hds⟩ : ∃ d0 ds2, natReprDigits n = d0 :: ds2 := by
    cases hdd : natReprDigits n with
    | nil => exact absurd hdd (natReprDigitsF_ne_nil (n + 1) n (by omega))
    | cons a l => exact ⟨a, l, rfl⟩
  have hmem0 : d0 ∈ natReprDigits n := by
    rw [hds]
    exact List.mem_cons_self d0 ds2
  obtain ⟨d, hd0⟩ : ∃ d, d0 = digitChar d :=
    exists_digitChar_of_mem (n + 1) n d0 (by omega) hmem0
  have hpy : pyInt (String.mk (d0 :: ds2)) = some (n : Int) := by
    unfold pyInt
    rw [show (String.mk (d0 :: ds2)).data = d0 :: ds2 from rfl]
    rw [stripChars_eq_self
      (fun c hc => hws c (List.mem_cons_of_mem ch (by rw [hds]; exact hc)))]
    subst hd0
    split
    · next rest heq =>
        exfalso
        have hne := (digitChar_props d).2.2.2.1
        injection heq with h1 h2
        exact hne h1
    · next rest heq =>
        exfalso
        have hne := (digitChar_props d).2.2.2.2
        injection heq with h1 h2
        exact hne h1
    · rw [← hds, pyIntCore_natReprDigits n]
      rfl
  have hparse : Coordinates.from_string (String.mk (ch :: natReprDigits n))
      = some ⟨(n : Int) - 1,
          (ch.toUpper.toNat : Int) - ('A'.toNat : Int)⟩ := by
    unfold Coordinates.from_string
    rw [hdata, hds]
    dsimp only
    rw [if_neg ?hletter]
    case hletter =>
      rintro (hl | hl)
      · exact absurd (show ch.toUpper.toNat < 65 from hl) (by omega)
      · exact absurd (show 90 < ch.toUpper.toNat from hl) (by omega)
    rw [hpy]
    dsimp only
    rw [if_neg (by omega)]
  refine ⟨hparse, ?_⟩
  unfold Coordinates.toDisplay
  dsimp only
  rw [hnorm]
  have hA : 'A'.toNat = 65 := rfl
  have hcol : (((('A'.toNat : Nat) : Int))
      + ((ch.toUpper.toNat : Int) - (('A'.toNat : Nat) : Int))).toNat
      = ch.toUpper.toNat := by
    rw [hA]
    omega
  rw [hcol]
  have hrow : (n : Int) - 1 + 1 = (n : Int) := by ring
  rw [hrow]
  have hint : intRepr (n : Int) = natRepr n := by
    unfold intRepr
    rw [if_neg (by omega)]
    congr 1
  rw [hint]
  simp only [Char.ofNat_toNat]
  rfl

/-- Witness for C7 at a concrete input: the spec example, row 5 / col 1 and
the text "B6". -/
theorem format_parse_roundtrip_witness :
    Coordinates.from_string (String.mk ('B' :: natReprDigits 6))
        = some ⟨(6 : Int) - 1,
            (('B'.toUpper.toNat : Int) - ('A'.toNat : Int))⟩ ∧
    Coordinates.toDisplay
        ⟨(6 : Int) - 1, (('B'.toUpper.toNat : Int) - ('A'.toNat : Int))⟩
        = pyNormalize (String.mk ('B' :: natReprDigits 6)) :=
  format_parse_roundtrip 'B' 6 (Or.inl (by decide)) (by decide)

theorem gptSubmitLoop_sleeps (outs : List AttemptOutcome) :
    ∀ efail : Option Nat,
    (gptSubmitLoop outs efail).2
      = (outs.takeWhile isFailure).filterMap sleepOf := by
  induction outs with
  | nil =>
      intro efail
      cases efail <;> rfl
  | cons o rest ih =>
      intro efail
      cases o with
      | success v => rfl
      | serviceError e =>
          simp only [gptSubmitLoop]
          rw [ih (some e)]
          rfl
      | parseFailure e =>
          simp only [gptSubmitLoop]
          rw [ih (some e)]
          rfl

theorem gptSubmitLoop_not_generic (outs : List AttemptOutcome) :
    ∀ e : Nat, (gptSubmitLoop outs (some e)).1 ≠ SubmitResult.genericError := by
  induction outs with
  | nil =>
      intro e
      simp [gptSubmitLoop]
  | cons o rest ih =>
      intro e
      cases o with
      | success v => simp [gptSubmitLoop]
      | serviceError e2 => exact ih e2
      | parseFailure e2 => exact ih e2

theorem gptSubmitLoop_raises_last (outs : List AttemptOutcome) :
    ∀ efail : Option Nat, (∀ o ∈ outs, isFailure o = true) →
    (gptSubmitLoop outs efail).1
      = (match outs.getLast? with
         | some o => SubmitResult.raised (errOf o)
         | none => (gptSubmitLoop [] efail).1) := by
  induction outs with
  | nil =>
      intro efail _
      rfl
  | cons o rest ih =>
      intro efail hall
      cases rest with
      | nil =>
          cases o with
          | success v =>
              exact absurd (hall _ (List.mem_cons_self _ _)) (by simp [isFailure])
          | serviceError e => rfl
          | parseFailure e => rfl
      | cons o2 rest2 =>
          have htail := fun ef =>
            ih ef (fun x hx => hall x (List.mem_cons_of_mem o hx))
          cases o with
          | success v =>
              exact absurd (hall _ (List.mem_cons_self _ _)) (by simp [isFailure])
          | serviceError e =>
              simp only [gptSubmitLoop]
              rw [htail (some e)]
              rw [List.getLast?_cons_cons]
              obtain ⟨x, hx⟩ : ∃ x, (o2 :: rest2).getLast? = some x := by
                cases hq : (o2 :: rest2).getLast? with
                | none => simp at hq
                | some x => exact ⟨x, rfl⟩
              rw [hx]
          | parseFailure e =>
              simp only [gptSubmitLoop]
              rw [htail (some e)]
              rw [List.getLast?_cons_cons]
              obtain ⟨x, hx⟩ : ∃ x, (o2 :: rest2).getLast? = some x := by
                cases hq : (o2 :: rest2).getLast? with
                | none => simp at hq
                | some x => exact ⟨x, rfl⟩
              rw [hx]

/-- Claim C5: the submit retry policy — a fixed ceiling of
`GPT_RETRY_LIMIT = 5` attempts; every transient service failure sleeps the
fixed `GPT_RETRY_BACKOFF_TIME_SECONDS = 30` backoff while a parse failure
adds no delay (the sleep-trace equation); when all attempts fail, the LAST
observed failure is re-raised; the generic internal error occurs exactly
when no attempt ran at all (no failure object exists). -/
theorem gpt_submit_retry_policy (attempts : Nat → AttemptOutcome)
    (hfail : ∀ i, i < GPT_RETRY_LIMIT → isFailure (attempts i) = true) :
    (gptSubmit attempts).1
        = SubmitResult.raised (errOf (attempts (GPT_RETRY_LIMIT - 1))) ∧
    (gptSubmit attempts).2
        = ((List.range GPT_RETRY_LIMIT).map attempts).filterMap sleepOf ∧
    GPT_RETRY_LIMIT = 5 ∧
    GPT_RETRY_BACKOFF_TIME_SECONDS = 30 ∧
    (∀ outs : List AttemptOutcome,
        ((gptSubmitLoop outs none).1 = SubmitResult.genericError ↔ outs = [])) ∧
    (∀ (outs : List AttemptOutcome) (efail : Option Nat),
        (gptSubmitLoop outs efail).2
          = (outs.takeWhile isFailure).filterMap sleepOf) := by
  have hall : ∀ o ∈ (List.range GPT_RETRY_LIMIT).map attempts,
      isFailure o = true := by
    intro o ho
    rw [List.mem_map] at ho
    obtain ⟨i, hi, rfl⟩ := ho
    rw [List.mem_range] at hi
    exact hfail i hi
  refine ⟨?_, ?_, rfl, rfl, ?_, gptSubmitLoop_sleeps⟩
  · rw [show gptSubmit attempts
        = gptSubmitLoop ((List.range GPT_RETRY_LIMIT).map attempts) none
        from rfl]
    rw [gptSubmitLoop_raises_last _ none hall]
    rfl
  · rw [show (gptSubmit attempts).2
        = (((List.range GPT_RETRY_LIMIT).map attempts).takeWhile
            isFailure).filterMap sleepOf
        from gptSubmitLoop_sleeps _ none]
    congr 1
    exact List.takeWhile_eq_self_iff.2 hall
  · intro outs
    constructor
    · intro hg
      cases outs with
      | nil => rfl
      | cons o rest =>
          exfalso
          cases o with
          | success v => simp [gptSubmitLoop] at hg
          | serviceError e =>
              exact gptSubmitLoop_not_generic rest e
                (by simpa [gptSubmitLoop] using hg)
          | parseFailure e =>
              exact gptSubmitLoop_not_generic rest e
                (by simpa [gptSubmitLoop] using hg)
    · rintro rfl
      rfl

/-- Witness for C5: with five failing attempts the loop re-raises the last
failure (the exception of attempt 4). -/
theorem gpt_submit_retry_policy_witness :
    (gptSubmit exAttempts).1
      = SubmitResult.raised (errOf (exAttempts (GPT_RETRY_LIMIT - 1))) :=
  (gpt_submit_retry_policy exAttempts (by decide)).1

/-- Counterexample to claim C8 as stated: the claim's own example
`(int, "description", (0, 8))` compiles to an integer node WITHOUT min/max —
the `isinstance(subschema_value, (int, float))` gate at the end of
`_convert_schema_recursive` is false for the class placeholder `int` — and an
enum list attaches to a non-string (integer) node. -/
theorem schema_range_dropped_for_class_placeholder :
    convertSchema (PyVal.pyTuple [PyVal.tyInt, PyVal.pyStr "description",
        PyVal.pyTuple [PyVal.pyInt 0, PyVal.pyInt 8]])
      = Except.ok (PyVal.pyDict [("type", PyVal.pyStr "integer"),
          ("description", PyVal.pyStr "description")]) ∧
    convertSchema (PyVal.pyTuple [PyVal.tyInt,
        PyVal.pyList [PyVal.pyStr "a", PyVal.pyStr "b"]])
      = Except.ok (PyVal.pyDict [("type", PyVal.pyStr "integer"),
          ("enum", PyVal.pyList [PyVal.pyStr "a", PyVal.pyStr "b"])]) :=
  ⟨rfl, rfl⟩

/-- Claim C8 (amended): for a tuple bundling a nonempty description and an
integer (min, max) range, the compiled node always carries the numeric type
tag and the description, but min/max attach ONLY when the type placeholder is
a numeric literal instance (such as `0`); with the `int` class placeholder,
or with the type inferred from the range, the range is silently dropped.
Enum lists attach to the node whatever its type tag is. -/
theorem schema_numeric_range_attachment (d : String) (a b : Int)
    (hd : d ≠ "") :
    convertSchema (PyVal.pyTuple [PyVal.tyInt, PyVal.pyStr d,
        PyVal.pyTuple [PyVal.pyInt a, PyVal.pyInt b]])
      = Except.ok (PyVal.pyDict [("type", PyVal.pyStr "integer"),
          ("description", PyVal.pyStr d)]) ∧
    convertSchema (PyVal.pyTuple [PyVal.pyInt 0, PyVal.pyStr d,
        PyVal.pyTuple [PyVal.pyInt a, PyVal.pyInt b]])
      = Except.ok (PyVal.pyDict [("type", PyVal.pyStr "integer"),
          ("description", PyVal.pyStr d),
          ("minValue", PyVal.pyInt a), ("maxValue", PyVal.pyInt b)]) ∧
    convertSchema (PyVal.pyTuple [PyVal.pyStr d,
        PyVal.pyTuple [PyVal.pyInt a, PyVal.pyInt b]])
      = Except.ok (PyVal.pyDict [("type", PyVal.pyStr "integer"),
          ("description", PyVal.pyStr d)]) := by
  have hbeq : (d == "") = false := by
    rw [beq_eq_false_iff_ne]
    exact hd
  refine ⟨?_, ?_, ?_⟩ <;>
    simp [convertSchema, convertRec, scanItem, pyFalsy, hbeq, inferValue,
      typeName, descField, enumField, rangeFields, isNumInstance,
      isFloatInstance, isPyNone, hd, pySize, pySizeList, pySizeEntries]

/-- Witness for C8 at the claim's concrete example input. -/
theorem schema_numeric_range_attachment_witness :
    convertSchema (PyVal.pyTuple [PyVal.tyInt, PyVal.pyStr "description",
        PyVal.pyTuple [PyVal.pyInt 0, PyVal.pyInt 8]])
      = Except.ok (PyVal.pyDict [("type", PyVal.pyStr "integer"),
          ("description", PyVal.pyStr "description")]) ∧
    convertSchema (PyVal.pyTuple [PyVal.pyInt 0, PyVal.pyStr "description",
        PyVal.pyTuple [PyVal.pyInt 0, PyVal.pyInt 8]])
      = Except.ok (PyVal.pyDict [("type", PyVal.pyStr "integer"),
          ("description", PyVal.pyStr "description"),
          ("minValue", PyVal.pyInt 0), ("maxValue", PyVal.pyInt 8)]) ∧
    convertSchema (PyVal.pyTuple [PyVal.pyStr "description",
        PyVal.pyTuple [PyVal.pyInt 0, PyVal.pyInt 8]])
      = Except.ok (PyVal.pyDict [("type", PyVal.pyStr "integer"),
          ("description", PyVal.pyStr "description")]) :=
  schema_numeric_range_attachment "description" 0 8 (by decide)

end FireAtWill
